import Mathlib

/-!
Verification of the request-gate middleware in `src/middleware/auth.js`.

The file shallowly embeds the two middleware variants of that source file:
the minimal variant (plain equality check against the configured key) and
the enhanced variant (sliding-window rate limiter followed by a
constant-time API-key verifier).  JavaScript numbers holding millisecond
timestamps are modelled as `Nat`; strings as Lean `String`; an absent
header or environment variable as `none : Option String`.  The per-client
mutable record stored in the module-level `requestStore` map is modelled
by explicit state passing of a `ClientData` value: `checkRateLimit`
returns both the result object and the client record as it is left in the
store (the JS code mutates the stored object's `requests` field in place
in both branches, and re-`set`s it only on the allow path; a client that
is not yet in the store corresponds to the default record with an empty
`requests` list).
-/

namespace AIDoc

set_option maxRecDepth 8000

/-- `RATE_LIMIT_WINDOW` from auth.js: 15 minutes in milliseconds. -/
def RATE_LIMIT_WINDOW : Nat := 15 * 60 * 1000

/-- `RATE_LIMIT_MAX_REQUESTS` from auth.js: max requests per window. -/
def RATE_LIMIT_MAX_REQUESTS : Nat := 100

/-- Per-client record kept in `requestStore`. -/
structure ClientData where
  requests : List Nat
  lastReset : Nat
deriving DecidableEq, Repr

/-- Result object returned by `checkRateLimit`. -/
structure RateLimitResult where
  allowed : Bool
  remaining : Nat
  resetTime : Nat
deriving DecidableEq, Repr

/-- The filter on line 45 of auth.js: keep a timestamp iff
`now - timestamp < RATE_LIMIT_WINDOW`.  (JS subtraction can go negative
for a future timestamp and the comparison then still holds; `Nat`
subtraction truncates to `0 < RATE_LIMIT_WINDOW`, which agrees.) -/
def pruneWindow (now : Nat) (requests : List Nat) : List Nat :=
  requests.filter (fun timestamp => now - timestamp < RATE_LIMIT_WINDOW)

/-- `Math.min(...list)` on a non-empty list of naturals.  `Math.min()` of
an empty spread is `Infinity` in JS; that case is unreachable in
`checkRateLimit` (see the claim about the empty-window denial) and is
given the junk value `0` here. -/
def jsMin : List Nat → Nat
  | [] => 0
  | h :: t => t.foldl min h

/-- `checkRateLimit` from auth.js lines 37-67, with the store projected to
the one client record it touches.  Returns the result object paired with
the record as left in the store after the call. -/
def checkRateLimit (clientData : ClientData) (now : Nat) : RateLimitResult × ClientData :=
  let pruned := pruneWindow now clientData.requests
  if RATE_LIMIT_MAX_REQUESTS ≤ pruned.length then
    (⟨false, 0, jsMin pruned + RATE_LIMIT_WINDOW⟩, ⟨pruned, clientData.lastReset⟩)
  else
    (⟨true, RATE_LIMIT_MAX_REQUESTS - (pruned.length + 1), now + RATE_LIMIT_WINDOW⟩,
     ⟨pruned ++ [now], clientData.lastReset⟩)

/-- Iterate `checkRateLimit` over a list of call times, collecting the
result of every call and the final stored record. -/
def runCalls (clientData : ClientData) (times : List Nat) : List RateLimitResult × ClientData :=
  match times with
  | [] => ([], clientData)
  | t :: ts =>
    let r := checkRateLimit clientData t
    let rest := runCalls r.2 ts
    (r.1 :: rest.1, rest.2)

/-- Truthiness test applied to the header value (`!token`) and to the
environment value (`!validApiKey`) in auth.js: a JS string is falsy iff
it is `undefined` (here `none`) or empty. -/
def strOptFalsy : Option String → Bool
  | none => true
  | some s => s.isEmpty

/-- Byte sequence of a key as compared on lines 124-129 of auth.js
(`Buffer.from(key, 'utf8')`), modelled at code-point granularity: two
keys map to equal sequences iff they are the same string, so the
decision — which only distinguishes "identical" from "different in
length or content" — classifies every pair of keys as the byte-level
code does. -/
def strBytes (s : String) : List Nat :=
  s.data.map Char.toNat

/-- Modelled from the spec: Node's `crypto.timingSafeEqual(a, b)`, called
on line 129 of auth.js on buffers already known to have equal length, is
the constant-time byte-for-byte comparison the spec describes: it XORs
every byte pair and ORs the results, inspecting the whole buffer
regardless of where the first mismatch occurs.  The second component
counts the byte-pair steps taken, so that constant-time is the statement
that it depends only on the length. -/
def timingSafeEqualTrace (a b : List Nat) : Nat × Nat :=
  (a.zip b).foldl (fun s p => (s.1 ||| (p.1 ^^^ p.2), s.2 + 1)) (0, 0)

/-- Boolean outcome of `crypto.timingSafeEqual`: true iff the OR of all
byte XORs is zero. -/
def timingSafeEqual (a b : List Nat) : Bool :=
  (timingSafeEqualTrace a b).1 == 0

/-- Decision of the enhanced middleware's key-verification section,
auth.js lines 98-158: missing/empty token denies 401; missing/empty
configured key denies 500; then a length check short-circuits the
constant-time comparison, any mismatch denying 403; otherwise the
request is allowed. -/
inductive AuthDecision where
  | allowed : AuthDecision
  | denied (error : String) (status : Nat) : AuthDecision
deriving DecidableEq, Repr

/-- Key verification as performed by the enhanced middleware (auth.js
lines 98-137), in the order the code performs it: the `!token` check on
line 101 runs before the `!validApiKey` check on line 113. -/
def verifyKey (providedKey configuredKey : Option String) : AuthDecision :=
  if strOptFalsy providedKey then
    .denied "Authentication Required" 401
  else if strOptFalsy configuredKey then
    .denied "Server Configuration Error" 500
  else
    let p := strBytes (providedKey.getD "")
    let c := strBytes (configuredKey.getD "")
    if p.length ≠ c.length || !(timingSafeEqual p c) then
      .denied "Invalid API Key" 403
    else
      .allowed

/-- `Math.ceil(a / b)` for natural `a` and positive natural `b`. -/
def natCeilDiv (a b : Nat) : Nat :=
  (a + b - 1) / b

/-- Observable outcome of one invocation of the enhanced middleware:
the three rate-limit headers it sets, the response status (`none` when
control passes to the downstream handler), the `error` field of a denial
body, the `retryAfter` field of a 429 body, whether the key-verification
section was reached, whether `next()` was called, and the client record
left in the store. -/
structure GateResult where
  rlLimit : Nat
  rlRemaining : Nat
  rlReset : Nat
  status : Option Nat
  error : Option String
  retryAfter : Option Nat
  verifierRan : Bool
  handlerRan : Bool
  state : ClientData
deriving DecidableEq, Repr

/-- The enhanced middleware (auth.js lines 70-169): rate limit first,
headers attached unconditionally, 429 short-circuit with
`retryAfter = ceil((resetTime - now) / 1000)`, then key verification,
then `next()`. -/
def gate (clientData : ClientData) (now : Nat)
    (providedKey configuredKey : Option String) : GateResult :=
  let rl := checkRateLimit clientData now
  if !rl.1.allowed then
    ⟨RATE_LIMIT_MAX_REQUESTS, rl.1.remaining, rl.1.resetTime,
     some 429, some "Too Many Requests",
     some (natCeilDiv (rl.1.resetTime - now) 1000), false, false, rl.2⟩
  else
    match verifyKey providedKey configuredKey with
    | .denied e s =>
        ⟨RATE_LIMIT_MAX_REQUESTS, rl.1.remaining, rl.1.resetTime,
         some s, some e, none, true, false, rl.2⟩
    | .allowed =>
        ⟨RATE_LIMIT_MAX_REQUESTS, rl.1.remaining, rl.1.resetTime,
         none, none, none, true, true, rl.2⟩

/-- Observable outcome of the minimal middleware variant. -/
structure MinimalResult where
  handlerRan : Bool
  status : Option Nat
deriving DecidableEq, Repr

/-- The minimal middleware variant (auth.js lines 1-8): strict equality
of the header value against `process.env.API_KEY` — `undefined ===
undefined` holds, so two absent values compare equal — with every
failure answered by status 403 and no rate limiting at all. -/
def minimalAuth (providedKey configuredKey : Option String) : MinimalResult :=
  if providedKey = configuredKey then ⟨true, none⟩ else ⟨false, some 403⟩


/-! ### Helper lemmas -/

theorem foldl_min_le_init (t : List Nat) : ∀ a, t.foldl min a ≤ a := by
  induction t with
  | nil => intro a; exact Nat.le_refl a
  | cons y ys ih =>
      intro a
      exact Nat.le_trans (ih (min a y)) (Nat.min_le_left a y)

theorem foldl_min_le_mem (t : List Nat) : ∀ a x, x ∈ t → t.foldl min a ≤ x := by
  induction t with
  | nil => intro a x hx; cases hx
  | cons y ys ih =>
      intro a x hx
      rcases List.mem_cons.mp hx with rfl | hx
      · exact Nat.le_trans (foldl_min_le_init ys (min a x)) (Nat.min_le_right a x)
      · exact ih (min a y) x hx

theorem foldl_min_mem (t : List Nat) : ∀ a, t.foldl min a = a ∨ t.foldl min a ∈ t := by
  induction t with
  | nil => intro a; left; rfl
  | cons y ys ih =>
      intro a
      have hstep : List.foldl min a (y :: ys) = List.foldl min (min a y) ys := rfl
      have hchoice : min a y = a ∨ min a y = y := by omega
      rcases ih (min a y) with h | h
      · rcases hchoice with hm | hm
        · left; rw [hstep, h, hm]
        · right; rw [hstep, h, hm]; exact List.mem_cons_self y ys
      · right; rw [hstep]; exact List.mem_cons_of_mem y h

theorem jsMin_mem {l : List Nat} (h : l ≠ []) : jsMin l ∈ l := by
  match l with
  | [] => exact absurd rfl h
  | y :: ys =>
      rcases foldl_min_mem ys y with h' | h'
      · rw [jsMin, h']; exact List.mem_cons_self y ys
      · exact List.mem_cons_of_mem y h'

theorem jsMin_le {l : List Nat} {x : Nat} (hx : x ∈ l) : jsMin l ≤ x := by
  match l with
  | [] => cases hx
  | y :: ys =>
      rcases List.mem_cons.mp hx with rfl | hx
      · exact foldl_min_le_init ys x
      · exact foldl_min_le_mem ys y x hx

theorem length_filter_lt_of_mem {l : List Nat} {p : Nat → Bool} {x : Nat}
    (hx : x ∈ l) (hpx : p x = false) : (l.filter p).length < l.length := by
  apply Nat.lt_of_le_of_ne (List.length_filter_le p l)
  intro heq
  have := List.filter_length_eq_length.mp heq x hx
  rw [hpx] at this
  cases this

theorem pruneWindow_eq_self {w : List Nat} {now : Nat}
    (h : w.length ≤ (pruneWindow now w).length) : pruneWindow now w = w := by
  apply List.filter_eq_self.mpr
  apply List.filter_length_eq_length.mp
  exact Nat.le_antisymm (List.length_filter_le _ _) h

theorem nat_or_eq_zero {x y : Nat} : x ||| y = 0 ↔ x = 0 ∧ y = 0 := by
  constructor
  · intro h
    constructor
    · apply Nat.eq_of_testBit_eq
      intro i
      have hbit := congrArg (fun n => Nat.testBit n i) h
      simp only [Nat.testBit_or, Nat.zero_testBit, Bool.or_eq_false_iff] at hbit
      simp [hbit.1]
    · apply Nat.eq_of_testBit_eq
      intro i
      have hbit := congrArg (fun n => Nat.testBit n i) h
      simp only [Nat.testBit_or, Nat.zero_testBit, Bool.or_eq_false_iff] at hbit
      simp [hbit.2]
  · rintro ⟨rfl, rfl⟩
    rfl

theorem trace_foldl_snd (l : List (Nat × Nat)) :
    ∀ s : Nat × Nat,
      (l.foldl (fun s p => (s.1 ||| (p.1 ^^^ p.2), s.2 + 1)) s).2 = s.2 + l.length := by
  induction l with
  | nil => intro s; simp
  | cons q qs ih =>
      intro s
      rw [List.foldl_cons, ih]
      simp only [List.length_cons]
      omega

theorem trace_foldl_fst (l : List (Nat × Nat)) :
    ∀ s : Nat × Nat,
      ((l.foldl (fun s p => (s.1 ||| (p.1 ^^^ p.2), s.2 + 1)) s).1 = 0 ↔
        s.1 = 0 ∧ ∀ p ∈ l, p.1 = p.2) := by
  induction l with
  | nil => intro s; simp
  | cons q qs ih =>
      intro s
      rw [List.foldl_cons, ih]
      constructor
      · rintro ⟨h1, h2⟩
        have h0 := nat_or_eq_zero.mp h1
        refine ⟨h0.1, fun p hp => ?_⟩
        rcases List.mem_cons.mp hp with rfl | hp
        · exact Nat.xor_eq_zero.mp h0.2
        · exact h2 p hp
      · rintro ⟨h1, h2⟩
        refine ⟨?_, fun p hp => h2 p (List.mem_cons_of_mem q hp)⟩
        rw [h1, Nat.zero_or, Nat.xor_eq_zero]
        exact h2 q (List.mem_cons_self q qs)

theorem zip_forall_eq : ∀ (a b : List Nat), a.length = b.length →
    ((∀ p ∈ a.zip b, p.1 = p.2) ↔ a = b) := by
  intro a
  induction a with
  | nil =>
      intro b hb
      cases b with
      | nil => simp
      | cons y ys => simp at hb
  | cons x xs ih =>
      intro b hb
      cases b with
      | nil => simp at hb
      | cons y ys =>
          simp only [List.zip_cons_cons, List.mem_cons, List.length_cons] at *
          constructor
          · intro h
            have hx : x = y := h (x, y) (Or.inl rfl)
            have hxs : xs = ys := (ih ys (by omega)).mp (fun p hp => h p (Or.inr hp))
            rw [hx, hxs]
          · intro h p hp
            rw [List.cons.injEq] at h
            obtain ⟨rfl, rfl⟩ := h
            rcases hp with rfl | hp
            · rfl
            · exact (ih xs rfl).mpr rfl p hp

theorem timingSafeEqualTrace_steps (a b : List Nat) (h : a.length = b.length) :
    (timingSafeEqualTrace a b).2 = a.length := by
  rw [timingSafeEqualTrace, trace_foldl_snd]
  simp [List.length_zip, h]

theorem timingSafeEqual_iff (a b : List Nat) (h : a.length = b.length) :
    timingSafeEqual a b = true ↔ a = b := by
  rw [timingSafeEqual, beq_iff_eq, timingSafeEqualTrace, trace_foldl_fst]
  constructor
  · rintro ⟨_, h2⟩
    exact (zip_forall_eq a b h).mp h2
  · intro he
    exact ⟨rfl, (zip_forall_eq a b h).mpr he⟩

theorem char_toNat_inj : Function.Injective Char.toNat := by
  intro c d h
  have := congrArg Char.ofNat h
  rwa [Char.ofNat_toNat, Char.ofNat_toNat] at this

theorem strBytes_inj {s t : String} (h : strBytes s = strBytes t) : s = t := by
  apply String.ext
  simp only [strBytes] at h
  exact List.map_injective_iff.mpr char_toNat_inj h

/-! ### Claim theorems: the sliding-window rate limiter -/

/-- C2.  If the pruned window holds `n < MAX_REQUESTS` timestamps, the
call appends `now` to the stored window and returns `allowed = true`,
`remaining = MAX_REQUESTS - (n+1)` and `resetAt = now + WINDOW_DURATION`;
consequently a client starting from an empty window that issues
`MAX_REQUESTS` calls within one window gets `allowed = true` every time,
with `remaining` decreasing strictly from `MAX_REQUESTS - 1` to `0`. -/
theorem checkRateLimit_allow_spec (clientData : ClientData) (now : Nat)
    (h : (pruneWindow now clientData.requests).length < RATE_LIMIT_MAX_REQUESTS) :
    (checkRateLimit clientData now).1.allowed = true ∧
    (checkRateLimit clientData now).1.remaining =
      RATE_LIMIT_MAX_REQUESTS - ((pruneWindow now clientData.requests).length + 1) ∧
    (checkRateLimit clientData now).1.resetTime = now + RATE_LIMIT_WINDOW ∧
    (checkRateLimit clientData now).2.requests =
      pruneWindow now clientData.requests ++ [now] ∧
    (runCalls ⟨[], 0⟩ (List.replicate 100 0)).1.map (fun r => (r.allowed, r.remaining)) =
      (List.range 100).map (fun i => (true, 99 - i)) := by
  have hn : ¬ RATE_LIMIT_MAX_REQUESTS ≤ (pruneWindow now clientData.requests).length :=
    Nat.not_le.mpr h
  refine ⟨?_, ?_, ?_, ?_, by decide⟩ <;> simp [checkRateLimit, hn]

/-- C2 witness: a first call on an empty window at time 0. -/
theorem checkRateLimit_allow_spec_witness :
    (checkRateLimit ⟨[], 0⟩ 0).1.allowed = true ∧
    (checkRateLimit ⟨[], 0⟩ 0).1.remaining = 99 := by
  have h := checkRateLimit_allow_spec ⟨[], 0⟩ 0 (by decide)
  exact ⟨h.1, by rw [h.2.1]; decide⟩

/-- C3.  If the pruned window holds at least `MAX_REQUESTS` timestamps
(and the stored window obeys the size invariant), the call denies with
`remaining = 0` and `resetAt` equal to the least surviving timestamp
plus the window duration, leaves the stored record exactly as it was,
and repeating the call at the same instant returns the identical denial
with the same `resetAt`. -/
theorem checkRateLimit_denial_spec (clientData : ClientData) (now : Nat)
    (hinv : clientData.requests.length ≤ RATE_LIMIT_MAX_REQUESTS)
    (h : RATE_LIMIT_MAX_REQUESTS ≤ (pruneWindow now clientData.requests).length) :
    (checkRateLimit clientData now).1.allowed = false ∧
    (checkRateLimit clientData now).1.remaining = 0 ∧
    (∃ m, m ∈ pruneWindow now clientData.requests ∧
      (∀ x ∈ pruneWindow now clientData.requests, m ≤ x) ∧
      (checkRateLimit clientData now).1.resetTime = m + RATE_LIMIT_WINDOW) ∧
    (checkRateLimit clientData now).2 = clientData ∧
    checkRateLimit (checkRateLimit clientData now).2 now = checkRateLimit clientData now := by
  have hself : pruneWindow now clientData.requests = clientData.requests :=
    pruneWindow_eq_self (Nat.le_trans hinv h)
  have hne : pruneWindow now clientData.requests ≠ [] := by
    intro hnil
    rw [hnil] at h
    simp [RATE_LIMIT_MAX_REQUESTS] at h
  have hstate : (checkRateLimit clientData now).2 = clientData := by
    simp only [checkRateLimit, if_pos h]
    rw [hself]
  refine ⟨?_, ?_, ⟨jsMin (pruneWindow now clientData.requests),
      jsMin_mem hne, fun x hx => jsMin_le hx, ?_⟩, hstate, by rw [hstate]⟩ <;>
    simp [checkRateLimit, if_pos h]

/-- C3 witness: a full window of 100 fresh timestamps denied at time 10. -/
theorem checkRateLimit_denial_spec_witness :
    (checkRateLimit ⟨List.replicate 100 5, 0⟩ 10).1.allowed = false ∧
    (checkRateLimit (checkRateLimit ⟨List.replicate 100 5, 0⟩ 10).2 10 =
      checkRateLimit ⟨List.replicate 100 5, 0⟩ 10) := by
  have h := checkRateLimit_denial_spec ⟨List.replicate 100 5, 0⟩ 10 (by decide) (by decide)
  exact ⟨h.1, h.2.2.2.2⟩

/-- C4 counterexample: at `now = 900000` the timestamp `0` equals
`now - WINDOW_DURATION`, so the claim says it survives the prune, yet
the filter removes it. -/
theorem pruneWindow_boundary_counterexample :
    pruneWindow 900000 [0] = [] ∧ ¬ (0 < 900000 - RATE_LIMIT_WINDOW) := by decide

/-- C4 amended.  The prune keeps exactly the stored timestamps `t` with
`now < t + WINDOW_DURATION` (equivalently `now - t < WINDOW_DURATION`):
a timestamp exactly `WINDOW_DURATION` old is removed, not kept; and the
allow/deny decision is computed from the surviving count. -/
theorem pruneWindow_spec (clientData : ClientData) (now t : Nat) :
    (t ∈ pruneWindow now clientData.requests ↔
      t ∈ clientData.requests ∧ now < t + RATE_LIMIT_WINDOW) ∧
    (checkRateLimit clientData now).1.allowed =
      decide ((pruneWindow now clientData.requests).length < RATE_LIMIT_MAX_REQUESTS) := by
  constructor
  · rw [pruneWindow, List.mem_filter]
    have : RATE_LIMIT_WINDOW = 900000 := rfl
    constructor
    · rintro ⟨hm, hlt⟩
      refine ⟨hm, ?_⟩
      simp only [decide_eq_true_eq] at hlt
      omega
    · rintro ⟨hm, hlt⟩
      refine ⟨hm, ?_⟩
      simp only [decide_eq_true_eq]
      omega
  · by_cases hc : RATE_LIMIT_MAX_REQUESTS ≤ (pruneWindow now clientData.requests).length
    · simp [checkRateLimit, if_pos hc, Nat.not_lt.mpr hc]
    · simp [checkRateLimit, if_neg hc, Nat.not_le.mp hc]

/-- C7.  A denial never happens on an empty surviving window, so the
`Math.min` in the denial branch is never evaluated on an empty list. -/
theorem denial_window_nonempty (clientData : ClientData) (now : Nat)
    (h : (checkRateLimit clientData now).1.allowed = false) :
    pruneWindow now clientData.requests ≠ [] := by
  by_cases hc : RATE_LIMIT_MAX_REQUESTS ≤ (pruneWindow now clientData.requests).length
  · intro hnil
    rw [hnil] at hc
    simp [RATE_LIMIT_MAX_REQUESTS] at hc
  · exfalso
    simp [checkRateLimit, if_neg hc] at h

/-- C7 witness: a concrete denied call has a non-empty pruned window. -/
theorem denial_window_nonempty_witness :
    pruneWindow 10 (List.replicate 100 5) ≠ [] :=
  denial_window_nonempty ⟨List.replicate 100 5, 0⟩ 10 (by decide)

/-- C9.  Every `checkRateLimit` call preserves the invariant that the
stored window holds at most `MAX_REQUESTS` timestamps: a timestamp is
appended only when the post-prune count is strictly below the cap. -/
theorem checkRateLimit_window_bounded (clientData : ClientData) (now : Nat)
    (h : clientData.requests.length ≤ RATE_LIMIT_MAX_REQUESTS) :
    ((checkRateLimit clientData now).2).requests.length ≤ RATE_LIMIT_MAX_REQUESTS := by
  by_cases hc : RATE_LIMIT_MAX_REQUESTS ≤ (pruneWindow now clientData.requests).length
  · simp only [checkRateLimit, if_pos hc]
    exact Nat.le_trans (List.length_filter_le _ _) h
  · have hlt := Nat.not_le.mp hc
    simp only [checkRateLimit, if_neg hc, List.length_append, List.length_cons,
      List.length_nil]
    omega

/-- C9 witness: the bound holds after a call on a window of 99 entries. -/
theorem checkRateLimit_window_bounded_witness :
    ((checkRateLimit ⟨List.replicate 99 5, 0⟩ 10).2).requests.length ≤
      RATE_LIMIT_MAX_REQUESTS :=
  checkRateLimit_window_bounded ⟨List.replicate 99 5, 0⟩ 10 (by decide)

/-- C6.  A client denied at `now` (under the size invariant) is allowed
again by any call strictly later than the denial's `resetAt`: by then
the least surviving timestamp has aged out, so the pruned window has
shrunk below `MAX_REQUESTS`. -/
theorem checkRateLimit_recovery (clientData : ClientData) (now later : Nat)
    (hinv : clientData.requests.length ≤ RATE_LIMIT_MAX_REQUESTS)
    (hden : (checkRateLimit clientData now).1.allowed = false)
    (hlater : (checkRateLimit clientData now).1.resetTime < later) :
    (checkRateLimit (checkRateLimit clientData now).2 later).1.allowed = true := by
  by_cases hc : RATE_LIMIT_MAX_REQUESTS ≤ (pruneWindow now clientData.requests).length
  case neg => exfalso; simp [checkRateLimit, if_neg hc] at hden
  have hstate : (checkRateLimit clientData now).2 =
      ⟨pruneWindow now clientData.requests, clientData.lastReset⟩ := by
    simp [checkRateLimit, if_pos hc]
  have hreset : (checkRateLimit clientData now).1.resetTime =
      jsMin (pruneWindow now clientData.requests) + RATE_LIMIT_WINDOW := by
    simp [checkRateLimit, if_pos hc]
  have hne : pruneWindow now clientData.requests ≠ [] := by
    intro h0
    rw [h0] at hc
    simp [RATE_LIMIT_MAX_REQUESTS] at hc
  have hmem : jsMin (pruneWindow now clientData.requests) ∈
      pruneWindow now clientData.requests := jsMin_mem hne
  rw [hreset] at hlater
  have hfail : decide (later - jsMin (pruneWindow now clientData.requests) <
      RATE_LIMIT_WINDOW) = false := by
    simp only [decide_eq_false_iff_not, Nat.not_lt]
    omega
  have hlt : (pruneWindow later (pruneWindow now clientData.requests)).length <
      (pruneWindow now clientData.requests).length :=
    length_filter_lt_of_mem hmem hfail
  have hplen : (pruneWindow now clientData.requests).length ≤ RATE_LIMIT_MAX_REQUESTS :=
    Nat.le_trans (List.length_filter_le _ _) hinv
  have hallow : ¬ RATE_LIMIT_MAX_REQUESTS ≤
      (pruneWindow later (pruneWindow now clientData.requests)).length := by
    omega
  rw [hstate]
  simp [checkRateLimit, hallow]

/-- C6 witness: the client denied at time 10 with `resetAt = 900005`
recovers at time 900006. -/
theorem checkRateLimit_recovery_witness :
    (checkRateLimit (checkRateLimit ⟨List.replicate 100 5, 0⟩ 10).2 900006).1.allowed = true :=
  checkRateLimit_recovery ⟨List.replicate 100 5, 0⟩ 10 900006 (by decide) (by decide)
    (by decide)

/-! ### Claim theorems: the API-key verifier -/

/-- C1 counterexample: when both the provided key and the configured key
are absent, the enhanced middleware answers the 401 missing-key denial,
not the claimed 500 misconfiguration denial, because the `!token` check
runs first. -/
theorem verifyKey_both_absent_counterexample :
    verifyKey none none = AuthDecision.denied "Authentication Required" 401 ∧
    verifyKey none none ≠ AuthDecision.denied "Server Configuration Error" 500 := by
  decide

/-- C1 amended.  When the configured key is absent or empty no request is
ever allowed: the decision is the 401 missing-key denial when the
provided key is also absent or empty, and the 500 misconfiguration
denial otherwise. -/
theorem verifyKey_config_absent (providedKey configuredKey : Option String)
    (hc : strOptFalsy configuredKey = true) :
    verifyKey providedKey configuredKey =
      if strOptFalsy providedKey then AuthDecision.denied "Authentication Required" 401
      else AuthDecision.denied "Server Configuration Error" 500 := by
  by_cases hp : strOptFalsy providedKey = true
  · simp [verifyKey, hp]
  · simp [verifyKey, hp, hc]

/-- C1 witness: a request that does supply a key against a missing
configured key receives the 500 denial. -/
theorem verifyKey_config_absent_witness :
    strOptFalsy (none : Option String) = true ∧
    verifyKey (some "anything") none = AuthDecision.denied "Server Configuration Error" 500 :=
  ⟨by decide, by rw [verifyKey_config_absent (some "anything") none (by decide)]; decide⟩

/-- C8.  With both keys present and non-empty the verifier allows exactly
the matching key and denies any mismatch with status 403, and the
comparison is constant-time in the model: on equal-length inputs the
byte-comparison loop always takes exactly one step per byte, independent
of where the first mismatch occurs. -/
theorem verifyKey_constant_time (providedKey configuredKey : String)
    (hp : providedKey.isEmpty = false) (hc : configuredKey.isEmpty = false) :
    (verifyKey (some providedKey) (some configuredKey) =
      if providedKey = configuredKey then AuthDecision.allowed
      else AuthDecision.denied "Invalid API Key" 403) ∧
    (∀ a b : List Nat, a.length = b.length → (timingSafeEqualTrace a b).2 = a.length) := by
  refine ⟨?_, fun a b hab => timingSafeEqualTrace_steps a b hab⟩
  by_cases heq : providedKey = configuredKey
  · subst heq
    have htse : timingSafeEqual (strBytes providedKey) (strBytes providedKey) = true :=
      (timingSafeEqual_iff _ _ rfl).mpr rfl
    simp [verifyKey, strOptFalsy, hp, htse]
  · have hbytes : strBytes providedKey ≠ strBytes configuredKey :=
      fun hh => heq (strBytes_inj hh)
    by_cases hlen : (strBytes providedKey).length = (strBytes configuredKey).length
    · have htse : timingSafeEqual (strBytes providedKey) (strBytes configuredKey) = false := by
        rcases Bool.eq_false_or_eq_true
            (timingSafeEqual (strBytes providedKey) (strBytes configuredKey)) with hb | hb
        · exact absurd ((timingSafeEqual_iff _ _ hlen).mp hb) hbytes
        · exact hb
      simp [verifyKey, strOptFalsy, hp, hc, heq, hlen, htse]
    · simp [verifyKey, strOptFalsy, hp, hc, heq, hlen]

/-- C8 witness: the mismatching pair from the spec is denied with 403,
and a concrete equal-length comparison takes one step per byte. -/
theorem verifyKey_constant_time_witness :
    verifyKey (some "abc") (some "abd") = AuthDecision.denied "Invalid API Key" 403 ∧
    (timingSafeEqualTrace [1, 2] [3, 4]).2 = 2 := by
  have h := verifyKey_constant_time "abc" "abd" (by decide) (by decide)
  exact ⟨by rw [h.1]; decide, h.2 [1, 2] [3, 4] rfl⟩

/-! ### Claim theorems: the request gate and the two variants -/

/-- C5.  On every request the gate runs the rate limiter first and
attaches the limit, remaining and reset headers regardless of outcome;
a rate-limit denial short-circuits with 429 and
`retryAfter = ceil((resetAt - now) / 1000)` and neither the verifier nor
the handler runs; the verifier runs exactly when the rate-limit check
passed. -/
theorem gate_ordering (clientData : ClientData) (now : Nat)
    (providedKey configuredKey : Option String) :
    (gate clientData now providedKey configuredKey).rlLimit = RATE_LIMIT_MAX_REQUESTS ∧
    (gate clientData now providedKey configuredKey).rlRemaining =
      (checkRateLimit clientData now).1.remaining ∧
    (gate clientData now providedKey configuredKey).rlReset =
      (checkRateLimit clientData now).1.resetTime ∧
    ((checkRateLimit clientData now).1.allowed = false →
      (gate clientData now providedKey configuredKey).status = some 429 ∧
      (gate clientData now providedKey configuredKey).retryAfter =
        some (natCeilDiv ((checkRateLimit clientData now).1.resetTime - now) 1000) ∧
      (gate clientData now providedKey configuredKey).verifierRan = false ∧
      (gate clientData now providedKey configuredKey).handlerRan = false) ∧
    ((gate clientData now providedKey configuredKey).verifierRan = true ↔
      (checkRateLimit clientData now).1.allowed = true) := by
  cases hall : (checkRateLimit clientData now).1.allowed with
  | false => simp [gate, hall]
  | true => cases hv : verifyKey providedKey configuredKey <;> simp [gate, hall, hv]

/-- C5 witness: a rate-limited request is answered 429 with the computed
retry delay and the verifier never runs. -/
theorem gate_ordering_witness :
    (gate ⟨List.replicate 100 5, 0⟩ 10 none none).status = some 429 ∧
    (gate ⟨List.replicate 100 5, 0⟩ 10 none none).retryAfter = some 900 ∧
    (gate ⟨List.replicate 100 5, 0⟩ 10 none none).verifierRan = false := by
  have h := gate_ordering ⟨List.replicate 100 5, 0⟩ 10 none none
  have hd := h.2.2.2.1 (by decide)
  refine ⟨hd.1, ?_, hd.2.2.1⟩
  rw [hd.2.1]
  decide

/-- C10.  The minimal middleware variant is not behaviorally equivalent
to the enhanced one: with no configured key and no supplied header the
minimal variant compares `undefined === undefined` and fails open,
calling the handler, while the enhanced variant denies that request with
401; moreover every minimal-variant failure is a 403. -/
theorem minimal_vs_enhanced :
    (minimalAuth none none).handlerRan = true ∧
    (gate ⟨[], 0⟩ 0 none none).handlerRan = false ∧
    (gate ⟨[], 0⟩ 0 none none).status = some 401 ∧
    (∀ providedKey configuredKey : Option String,
      (minimalAuth providedKey configuredKey).handlerRan = false →
      (minimalAuth providedKey configuredKey).status = some 403) := by
  refine ⟨by decide, by decide, by decide, ?_⟩
  intro p c h
  by_cases hpc : p = c
  · simp [minimalAuth, hpc] at h
  · simp [minimalAuth, hpc]

/-- C10 witness: a failing minimal-variant request gets status 403. -/
theorem minimal_vs_enhanced_witness :
    (minimalAuth (some "a") none).status = some 403 :=
  minimal_vs_enhanced.2.2.2 (some "a") none (by decide)

end AIDoc
